import Mathlib

/-!
Verification of the retrieval-augmented answering pipeline of the
Privacy-Preserving-CDSS repository.

The Python sources are shallowly embedded:

* `src/processing/chunker.py` — text is modelled as `List Char`; `str.split()`
  is `pywords`; `" ".join` is `joinSpace`; the sentence-boundary regex
  `(?<=[.!?])\s+(?=[A-Z])` is the character-level scanner `splitAuxF`
  (fuelled by the input length, which each step strictly decreases, so the
  fuel never runs out); the `while` loop of `chunk_by_words` is the fuelled
  loop `cbwLoop` returning `none` when the fuel is exhausted, so divergence
  of the Python loop shows up as `= none` for every fuel.
* `src/rag/retrieval.py`, `src/rag/pipeline.py` — the external vector index
  (reached through `embed_text` + `search_similar`) is a parameter
  `S : SearchFn`; the LLM (`generate_answer`, `generate_answer_stream`) is a
  parameter function; result dicts are structures with `Option` fields and
  the Python `dict.get(key, default)` reads are `Option.getD`.
* Python floats are idealised: similarity scores as `ℚ` (`round(x, 3)` and
  the `:.2f` format become exact decimal round-half-even, via integer
  arithmetic on numerator/denominator), vectors in
  `src/embedding/embed_model.py` as `List ℝ`.
* Python `x or default` on int-or-None arguments is `pyOr` (`0` and `None`
  are both falsy).
-/

/-- Characters of a string (Python `str` as a character list). -/
def strChars (s : String) : List Char := s.data

/-- Whitespace test used by Python `str.split` / `str.strip` and `\s`. -/
def isSpaceC (c : Char) : Bool := c == ' ' || c == '\t' || c == '\n' || c == '\r'

/-- Uppercase-letter test for the regex lookahead `(?=[A-Z])`. -/
def isUpperC (c : Char) : Bool := 'A' ≤ c && c ≤ 'Z'

/-- Sentence-terminal test for the regex lookbehind `(?<=[.!?])`. -/
def isTermC (c : Char) : Bool := c == '.' || c == '!' || c == '?'

/-- Accumulator loop of `pywords`; `cur` holds the current word reversed. -/
def wordsAux (cur : List Char) : List Char → List (List Char)
  | [] => if cur.isEmpty then [] else [cur.reverse]
  | c :: cs =>
    if isSpaceC c then
      (if cur.isEmpty then wordsAux [] cs else cur.reverse :: wordsAux [] cs)
    else wordsAux (c :: cur) cs

/-- Python `text.split()`: split on whitespace runs, dropping empty pieces. -/
def pywords (s : List Char) : List (List Char) := wordsAux [] s

/-- Python `" ".join(parts)`. -/
def joinSpace : List (List Char) → List Char
  | [] => []
  | [x] => x
  | x :: xs => x ++ ' ' :: joinSpace xs

/-- Drop trailing whitespace. -/
def dropTrail (l : List Char) : List Char := (l.reverse.dropWhile isSpaceC).reverse

/-- Python `s.strip()`. -/
def stripCL (l : List Char) : List Char := dropTrail (l.dropWhile isSpaceC)

/-- Does the remainder after a terminal character match `\s+(?=[A-Z])`? -/
def upperAfterSpace (rest : List Char) : Bool :=
  match rest.dropWhile isSpaceC with
  | u :: _ => isUpperC u
  | [] => false

/-- Character-level scanner for `re.split(r'(?<=[.!?])\s+(?=[A-Z])', text)`:
left-to-right, a split point is a terminal character followed by a maximal
nonempty whitespace run whose successor is an uppercase letter; the run is
consumed.  `fuel` only needs to be at least the input length (every step
consumes at least one character), and on exhaustion the remaining input is
flushed into the current part. -/
def splitAuxF : Nat → List Char → List Char → List (List Char)
  | _, cur, [] => [cur.reverse]
  | 0, cur, cs => [cur.reverse ++ cs]
  | fuel + 1, cur, c :: rest =>
    if isTermC c = true ∧ rest.takeWhile isSpaceC ≠ [] ∧ upperAfterSpace rest = true then
      (c :: cur).reverse :: splitAuxF fuel [] (rest.dropWhile isSpaceC)
    else splitAuxF fuel (c :: cur) rest

/-- The parts produced by the sentence-boundary regex split. -/
def splitParts (text : List Char) : List (List Char) := splitAuxF text.length [] text

/-- `sentences = [s.strip() for s in sentences if s.strip()]` applied to the
regex split (Python keeps `s.strip()` exactly when it is truthy). -/
def sentencesOf (text : List Char) : List (List Char) :=
  ((splitParts text).map stripCL).filter (fun s => !s.isEmpty)

/-- `len(sentence.split())` — the word count of a sentence. -/
def wc (s : List Char) : Nat := (pywords s).length

/-- The overlap loop of `chunk_by_sentences`: iterate the previous chunk in
reverse, carrying whole sentences while the word budget `ov` is not
exceeded, and stop at the first sentence that would exceed it.  Returns the
carried sentences (in order) together with their word count. -/
def ovSentAux (ov : Nat) : List (List Char) → Nat → List (List Char) →
    List (List Char) × Nat
  | acc, cnt, [] => (acc, cnt)
  | acc, cnt, s :: rest =>
    if cnt + wc s ≤ ov then ovSentAux ov (s :: acc) (cnt + wc s) rest else (acc, cnt)

/-- `overlap_sentences` / `overlap_word_count` computed from a closed chunk. -/
def ovSent (ov : Nat) (chunk : List (List Char)) : List (List Char) × Nat :=
  ovSentAux ov [] 0 chunk.reverse

/-- The sentence-accumulation loop of `chunk_by_sentences` (`current_chunk`,
`current_word_count` as state; emitted chunks are the space-joined sentence
lists, the final nonempty chunk included). -/
def csLoop (target ov : Nat) : List (List Char) → Nat → List (List Char) →
    List (List Char)
  | cur, _, [] => if cur.isEmpty then [] else [joinSpace cur]
  | cur, cnt, s :: rest =>
    if target < cnt + wc s ∧ cur.isEmpty = false then
      joinSpace cur ::
        csLoop target ov ((ovSent ov cur).1 ++ [s]) ((ovSent ov cur).2 + wc s) rest
    else csLoop target ov (cur ++ [s]) (cnt + wc s) rest

/-- `chunk_by_sentences(text, target_size, overlap)`. -/
def chunk_by_sentences (text : List Char) (target ov : Nat) : List (List Char) :=
  let sents := sentencesOf text
  if sents.isEmpty then (if (stripCL text).isEmpty then [] else [text])
  else csLoop target ov [] 0 sents

/-- Instrumented copy of `csLoop` keeping each chunk split as
(carried-overlap sentences, newly accumulated sentences); the running chunk
is `carr ++ new`. -/
def csLoopAnn (target ov : Nat) : List (List Char) → List (List Char) → Nat →
    List (List Char) → List (List (List Char) × List (List Char))
  | carr, new, _, [] => if (carr ++ new).isEmpty then [] else [(carr, new)]
  | carr, new, cnt, s :: rest =>
    if target < cnt + wc s ∧ (carr ++ new).isEmpty = false then
      (carr, new) ::
        csLoopAnn target ov (ovSent ov (carr ++ new)).1 [s]
          ((ovSent ov (carr ++ new)).2 + wc s) rest
    else csLoopAnn target ov carr (new ++ [s]) (cnt + wc s) rest

/-- The chunks of `chunk_by_sentences`, each decomposed into its carried
overlap prefix and its new sentences. -/
def chunkAnn (text : List Char) (target ov : Nat) :
    List (List (List Char) × List (List Char)) :=
  let sents := sentencesOf text
  if sents.isEmpty then (if (stripCL text).isEmpty then [] else [([], [text])])
  else csLoopAnn target ov [] [] 0 sents

/-- Python slice `l[a:b]` (negative indices count from the end, then both
bounds are clamped to `[0, len]`). -/
def pySlice {α : Type} (l : List α) (a b : Int) : List α :=
  let n : Int := l.length
  let norm : Int → Nat := fun i => (if i < 0 then max (n + i) 0 else min i n).toNat
  (l.take (norm b)).drop (norm a)

/-- The `while start < len(words)` loop of `chunk_by_words`, with fuel: one
unit per iteration, `none` when the fuel runs out.  The state is `start`
(an `Int`: `start = end - overlap` can go negative when
`overlap > chunk_size`, after which Python slicing uses negative-index
semantics).  The loop breaks after an iteration iff
`start' >= len(words) - overlap`. -/
def cbwLoop (size ov : Nat) (words : List (List Char)) :
    Nat → Int → Option (List (List Char))
  | 0, _ => none
  | fuel + 1, start =>
    if start < (words.length : Int) then
      let e : Int := start + (size : Int)
      let chunk := joinSpace (pySlice words start e)
      let start2 : Int := e - (ov : Int)
      if (words.length : Int) - (ov : Int) ≤ start2 then some [chunk]
      else (cbwLoop size ov words fuel start2).map (fun l => chunk :: l)
    else some []

/-- `chunk_by_words(text, chunk_size, overlap)`, fuelled. -/
def chunk_by_wordsF (fuel size ov : Nat) (text : List Char) :
    Option (List (List Char)) :=
  cbwLoop size ov (pywords text) fuel 0

/-- Python `x or default` for an int-or-None argument: `None` and `0` are
falsy and are replaced by the default. -/
def pyOr (x : Option Nat) (d : Nat) : Nat :=
  match x with
  | none => d
  | some n => if n = 0 then d else n

/-- `chunk_text(text, chunk_size, chunk_overlap, respect_sentences)` with the
settings values `CHUNK_SIZE` / `CHUNK_OVERLAP` as parameters; the word-count
mode needs fuel because its loop can diverge. -/
def chunk_text (fuel : Nat) (text : List Char)
    (chunk_size chunk_overlap : Option Nat) (respect_sentences : Bool)
    (CHUNK_SIZE CHUNK_OVERLAP : Nat) : Option (List (List Char)) :=
  if (stripCL text).isEmpty then some []
  else
    let size := pyOr chunk_size CHUNK_SIZE
    let ov := pyOr chunk_overlap CHUNK_OVERLAP
    if respect_sentences then some (chunk_by_sentences text size ov)
    else chunk_by_wordsF fuel size ov text

/-- A result dict of `search_similar`, as consumed by `retrieval.py`
(`dict.get` with a default is modelled by `Option.getD`). -/
structure RetrievedChunk where
  content : Option String
  source_file : Option String
  chunk_index : Option Nat
  similarity : Option ℚ
  deriving DecidableEq, Repr

/-- A citation dict built by `get_sources`. -/
structure SourceCitation where
  source_file : String
  chunk_index : Nat
  similarity : ℚ
  preview : String
  deriving DecidableEq, Repr

/-- The `QueryResult` dataclass of `pipeline.py`. -/
structure QueryResult where
  query : String
  answer : String
  sources : List SourceCitation
  context_used : String
  chunks_retrieved : Nat
  deriving DecidableEq, Repr

/-- The composition `search_similar(embed_text(query), top_k, source_filter)`
as an oracle: the embedder plus vector index are external collaborators. -/
def SearchFn : Type := String → Nat → Option String → List RetrievedChunk

/-- `retrieve_relevant_chunks(query, top_k, source_filter, min_similarity)`,
with the setting `TOP_K_RESULTS` as a parameter. -/
def retrieve_relevant_chunks (S : SearchFn) (query : String)
    (top_k : Option Nat) (source_filter : Option String) (min_similarity : ℚ)
    (TOP_K_RESULTS : Nat) : List RetrievedChunk :=
  let tk := pyOr top_k TOP_K_RESULTS
  let results := S query tk source_filter
  if 0 < min_similarity then
    results.filter (fun r => decide (min_similarity ≤ r.similarity.getD 0))
  else results

/-- Round-half-even of the fraction `n / d` (`d ≠ 0`) to the nearest integer:
the exact-arithmetic content of Python `round` and of `format(..., '.2f')`
rounding, kept in integer arithmetic. -/
def intRoundHE (n : Int) (d : Nat) : Int :=
  let f := Int.fdiv n d
  let r := n - f * d
  if 2 * r < d then f
  else if (d : Int) < 2 * r then f + 1
  else if f % 2 = 0 then f else f + 1

/-- Python `round(q, 3)` on the idealised rational value. -/
def round3 (q : ℚ) : ℚ := (intRoundHE (q.num * 1000) q.den : ℚ) / 1000

/-- Two-digit zero-padding for the fractional part of `fmt2`. -/
def pad2 (n : Nat) : String := if n < 10 then "0" ++ toString n else toString n

/-- Python `f"{q:.2f}"` on the idealised rational value: round-half-even to
two decimals, rendered with exactly two fractional digits. -/
def fmt2 (q : ℚ) : String :=
  let n := intRoundHE (q.num * 100) q.den
  let m := n.natAbs
  (if n < 0 then "-" else "") ++ toString (m / 100) ++ "." ++ pad2 (m % 100)

/-- `get_sources(chunks)` from `retrieval.py`: one citation per chunk, the
preview being the first 100 characters of the content plus `"..."`
(unconditionally, as the source does). -/
def get_sources (chunks : List RetrievedChunk) : List SourceCitation :=
  chunks.map (fun c =>
    ⟨c.source_file.getD ("Unknown"), c.chunk_index.getD 0,
      round3 (c.similarity.getD 0), (c.content.getD ("")).take 100 ++ "..."⟩)

/-- One rendered block of `format_context` for chunk number `i`. -/
def contextBlock (i : Nat) (c : RetrievedChunk) : String :=
  "[Source " ++ toString i ++ ": " ++ c.source_file.getD ("Unknown") ++
    " (relevance: " ++ fmt2 (c.similarity.getD 0) ++ ")]\n" ++ c.content.getD ("")

/-- The `for i, chunk in enumerate(chunks, 1)` loop of `format_context`. -/
def contextParts (include_sources : Bool) : Nat → List RetrievedChunk → List String
  | _, [] => []
  | i, c :: rest =>
    (if include_sources then contextBlock i c else c.content.getD ("")) ::
      contextParts include_sources (i + 1) rest

/-- `format_context(chunks, include_sources=True)`. -/
def format_context (chunks : List RetrievedChunk) (include_sources : Bool) : String :=
  if chunks.isEmpty then "No relevant information found in the knowledge base."
  else String.intercalate ("\n\n---\n\n") (contextParts include_sources 1 chunks)

/-- The fixed fallback answer of `CDSSPipeline.query`. -/
def fallbackAnswer : String :=
  "I couldn\x27t find relevant information in my knowledge base to answer this question. Please try rephrasing or consult with a healthcare professional."

/-- `CDSSPipeline.query(question, source_filter)`.  `gen` is the external
`generate_answer(query, context, temperature)`; `top_k0` is the constructor
argument (`self.top_k = top_k or settings.TOP_K_RESULTS`); `min_similarity`
and `temperature` are the constructor values used by `query`. -/
def pipeline_query (S : SearchFn) (gen : String → String → ℚ → String)
    (TOP_K_RESULTS : Nat) (top_k0 : Option Nat) (min_similarity temperature : ℚ)
    (question : String) (source_filter : Option String) : QueryResult :=
  let tk := pyOr top_k0 TOP_K_RESULTS
  let chunks :=
    retrieve_relevant_chunks S question (some tk) source_filter min_similarity
      TOP_K_RESULTS
  if chunks.isEmpty then ⟨question, fallbackAnswer, [], "", 0⟩
  else
    let context := format_context chunks true
    ⟨question, gen question context temperature, get_sources chunks, context,
      chunks.length⟩

/-- The event dicts yielded by `CDSSPipeline.query_stream`. -/
inductive StreamEvent where
  | errorEv : String → StreamEvent
  | sourcesEv : List SourceCitation → StreamEvent
  | answerChunk : String → StreamEvent
  | doneEv : StreamEvent
  deriving DecidableEq, Repr

/-- `CDSSPipeline.query_stream(question, source_filter)` as the finite list
of yielded events; `genStream` is the external
`generate_answer_stream(query, context, temperature)` fragment sequence.
Note the source calls `retrieve_relevant_chunks` without `min_similarity`,
so the Python default `0.0` is what is passed. -/
def pipeline_query_stream (S : SearchFn)
    (genStream : String → String → ℚ → List String) (TOP_K_RESULTS : Nat)
    (top_k0 : Option Nat) (temperature : ℚ) (question : String)
    (source_filter : Option String) : List StreamEvent :=
  let tk := pyOr top_k0 TOP_K_RESULTS
  let chunks :=
    retrieve_relevant_chunks S question (some tk) source_filter 0 TOP_K_RESULTS
  if chunks.isEmpty then [StreamEvent.errorEv ("No relevant information found.")]
  else
    let context := format_context chunks true
    StreamEvent.sourcesEv (get_sources chunks) ::
      (genStream question context temperature).map StreamEvent.answerChunk ++
        [StreamEvent.doneEv]

/-- Modelled from the spec (refinement side of C2): the event stream that
`query_stream` would emit if it performed exactly the retrieval and assembly
of `query` — the `sources` event carrying the result's sources, the answer
fragments generated from the result's context, and a terminal `done`; an
`error` event when that query retrieved nothing. -/
def streamSpecOfResult (genStream : String → String → ℚ → List String)
    (temperature : ℚ) (res : QueryResult) : List StreamEvent :=
  if res.chunks_retrieved = 0 then
    [StreamEvent.errorEv ("No relevant information found.")]
  else
    StreamEvent.sourcesEv res.sources ::
      (genStream res.query res.context_used temperature).map
        StreamEvent.answerChunk ++ [StreamEvent.doneEv]

/-- `np.dot` on the embedding vectors, idealised over `ℝ`. -/
def dotR : List ℝ → List ℝ → ℝ
  | a :: as, b :: bs => a * b + dotR as bs
  | _, _ => 0

/-- `np.linalg.norm(v)` = the Euclidean norm, idealised over `ℝ`. -/
noncomputable def normR (v : List ℝ) : ℝ := Real.sqrt (dotR v v)

open Classical in
/-- `compute_similarity(embedding1, embedding2)` from `embed_model.py`. -/
noncomputable def compute_similarity (v1 v2 : List ℝ) : ℝ :=
  if normR v1 = 0 ∨ normR v2 = 0 then 0
  else dotR v1 v2 / (normR v1 * normR v2)

/-- Modelled from the spec glossary: cosine similarity is the normalised
dot product of the two vectors. -/
noncomputable def cosineSim (v1 v2 : List ℝ) : ℝ :=
  dotR v1 v2 / (normR v1 * normR v2)

/-- Concrete search oracle for the C2 counterexample: one hit with
similarity 0, below the pipeline threshold 1 used there. -/
def cexChunk : RetrievedChunk := ⟨some ("content"), some ("doc"), some 0, some 0⟩

/-- Oracle returning `cexChunk` for every request. -/
def cexSearch : SearchFn := fun _ _ _ => [cexChunk]

/-- Oracle with two hits, similarities 2 and 0, for the C7 witness. -/
def twoHitSearch : SearchFn := fun _ _ _ =>
  [⟨some ("a"), some ("s"), some 0, some 2⟩,
    ⟨some ("b"), some ("s"), some 1, some 0⟩]

/-- Oracle returning no hits. -/
def emptySearch : SearchFn := fun _ _ _ => []

/-- Splitting at a single whitespace character splits the word list. -/
theorem wordsAux_space_sep (s : Char) (hs : isSpaceC s = true) :
    ∀ (xs cur ys : List Char),
      wordsAux cur (xs ++ s :: ys) = wordsAux cur xs ++ wordsAux [] ys := by
  intro xs
  induction xs with
  | nil =>
    intro cur ys
    cases hc : cur.isEmpty <;> simp [wordsAux, hs, hc]
  | cons x xs ih =>
    intro cur ys
    by_cases hx : isSpaceC x = true
    · cases hc : cur.isEmpty <;> simp [wordsAux, hx, hc, ih]
    · simp [wordsAux, hx, ih]

/-- On all-whitespace input the loop only flushes its accumulator. -/
theorem wordsAux_all_space :
    ∀ (ws : List Char), (∀ c ∈ ws, isSpaceC c = true) →
      ∀ cur, wordsAux cur ws = if cur.isEmpty then [] else [cur.reverse] := by
  intro ws
  induction ws with
  | nil => intro _ cur; simp [wordsAux]
  | cons w ws ih =>
    intro h cur
    have hw : isSpaceC w = true := h w (by simp)
    have ih2 : wordsAux [] ws = [] := by
      simpa using ih (fun c hc => h c (by simp [hc])) []
    cases hc : cur.isEmpty <;> simp [wordsAux, hw, hc, ih2]

/-- A leading all-whitespace block does not contribute words. -/
theorem wordsAux_space_pre (ws : List Char) (h : ∀ c ∈ ws, isSpaceC c = true)
    (ys : List Char) : wordsAux [] (ws ++ ys) = wordsAux [] ys := by
  induction ws with
  | nil => rfl
  | cons w ws ih =>
    have hw : isSpaceC w = true := h w (by simp)
    have step : wordsAux [] (w :: (ws ++ ys)) = wordsAux [] (ws ++ ys) := by
      simp [wordsAux, hw]
    rw [List.cons_append, step]
    exact ih (fun c hc => h c (by simp [hc]))

/-- A trailing all-whitespace block does not contribute words. -/
theorem wordsAux_space_suf (ws : List Char) (h : ∀ c ∈ ws, isSpaceC c = true) :
    ∀ (xs cur : List Char), wordsAux cur (xs ++ ws) = wordsAux cur xs := by
  intro xs
  induction xs with
  | nil =>
    intro cur
    rw [List.nil_append, wordsAux_all_space ws h cur]
    simp [wordsAux]
  | cons x xs ih =>
    intro cur
    by_cases hx : isSpaceC x = true
    · cases hc : cur.isEmpty <;> simp [wordsAux, hx, hc, ih]
    · simp [wordsAux, hx, ih]

/-- A nonempty all-whitespace separator block splits the word list. -/
theorem pywords_space_block (ws : List Char) (hne : ws ≠ [])
    (h : ∀ c ∈ ws, isSpaceC c = true) (A B : List Char) :
    pywords (A ++ (ws ++ B)) = pywords A ++ pywords B := by
  cases ws with
  | nil => exact absurd rfl hne
  | cons s ws2 =>
    have hs : isSpaceC s = true := h s (by simp)
    have h2 : ∀ c ∈ ws2, isSpaceC c = true := fun c hc => h c (by simp [hc])
    calc pywords (A ++ (s :: ws2 ++ B))
        = wordsAux [] (A ++ s :: (ws2 ++ B)) := by simp [pywords]
      _ = wordsAux [] A ++ wordsAux [] (ws2 ++ B) :=
          wordsAux_space_sep s hs A [] (ws2 ++ B)
      _ = pywords A ++ pywords B := by
          rw [wordsAux_space_pre ws2 h2 B]; rfl

/-- Dropping leading whitespace preserves the word list. -/
theorem pywords_dropWhile (l : List Char) :
    pywords (l.dropWhile isSpaceC) = pywords l := by
  conv_rhs => rw [← List.takeWhile_append_dropWhile isSpaceC l]
  show wordsAux [] _ = wordsAux [] _
  exact (wordsAux_space_pre _ (fun c hc => List.mem_takeWhile_imp hc) _).symm

/-- `dropTrail` splits off the maximal all-whitespace suffix. -/
theorem dropTrail_spec (l : List Char) :
    dropTrail l ++ (l.reverse.takeWhile isSpaceC).reverse = l := by
  rw [dropTrail, ← List.reverse_append, List.takeWhile_append_dropWhile,
    List.reverse_reverse]

/-- Dropping trailing whitespace preserves the word list. -/
theorem pywords_dropTrail (l : List Char) : pywords (dropTrail l) = pywords l := by
  conv_rhs => rw [← dropTrail_spec l]
  show wordsAux [] _ = wordsAux [] _
  exact (wordsAux_space_suf _
    (fun c hc => List.mem_takeWhile_imp (List.mem_reverse.mp hc)) _ _).symm

/-- `strip` preserves the word list. -/
theorem pywords_strip (l : List Char) : pywords (stripCL l) = pywords l := by
  rw [stripCL, pywords_dropTrail, pywords_dropWhile]

/-- The words of a space-join are the concatenation of the words. -/
theorem pywords_joinSpace : ∀ l : List (List Char),
    pywords (joinSpace l) = l.flatMap pywords := by
  intro l
  induction l with
  | nil => rfl
  | cons x xs ih =>
    cases xs with
    | nil => simp [joinSpace, pywords]
    | cons y ys =>
      have hs : isSpaceC ' ' = true := rfl
      calc pywords (joinSpace (x :: y :: ys))
          = wordsAux [] (x ++ ' ' :: joinSpace (y :: ys)) := rfl
        _ = wordsAux [] x ++ wordsAux [] (joinSpace (y :: ys)) :=
            wordsAux_space_sep ' ' hs x [] _
        _ = pywords x ++ (y :: ys).flatMap pywords := by rw [← ih]; rfl
        _ = (x :: y :: ys).flatMap pywords := by simp

/-- Pointwise-equal functions give equal flat maps. -/
theorem flatMap_congr_of_eq {α β : Type} (l : List α) (f g : α → List β)
    (h : ∀ x ∈ l, f x = g x) : l.flatMap f = l.flatMap g := by
  induction l with
  | nil => rfl
  | cons a t ih =>
    simp only [List.flatMap_cons]
    rw [h a (by simp), ih (fun x hx => h x (by simp [hx]))]

/-- Filtering away elements with empty image does not change a flat map. -/
theorem flatMap_filter_of_nil {α β : Type} (l : List α) (p : α → Bool)
    (f : α → List β) (h : ∀ x ∈ l, p x = false → f x = []) :
    (l.filter p).flatMap f = l.flatMap f := by
  induction l with
  | nil => rfl
  | cons a t ih =>
    have ih2 := ih (fun x hx hfx => h x (by simp [hx]) hfx)
    by_cases hp : p a = true
    · simp [List.filter_cons, hp, ih2]
    · have hpf : p a = false := by simpa using hp
      simp [List.filter_cons, hpf, h a (by simp) hpf, ih2]

/-- The regex split only consumes whitespace: the words of the parts,
concatenated, are the words of the input. -/
theorem splitAuxF_words : ∀ (fuel : Nat) (cs cur : List Char),
    (splitAuxF fuel cur cs).flatMap pywords = pywords (cur.reverse ++ cs) := by
  intro fuel
  induction fuel with
  | zero =>
    intro cs cur
    cases cs with
    | nil => simp [splitAuxF]
    | cons c rest => simp [splitAuxF]
  | succ n ih =>
    intro cs cur
    cases cs with
    | nil => simp [splitAuxF]
    | cons c rest =>
      by_cases hcond : isTermC c = true ∧ rest.takeWhile isSpaceC ≠ [] ∧
          upperAfterSpace rest = true
      · rw [splitAuxF, if_pos hcond]
        have hsplit : rest.takeWhile isSpaceC ++ rest.dropWhile isSpaceC = rest :=
          List.takeWhile_append_dropWhile isSpaceC rest
        calc ((c :: cur).reverse :: splitAuxF n [] (rest.dropWhile isSpaceC)).flatMap
              pywords
            = pywords ((c :: cur).reverse) ++
                (splitAuxF n [] (rest.dropWhile isSpaceC)).flatMap pywords := by
              simp
          _ = pywords (cur.reverse ++ [c]) ++ pywords (rest.dropWhile isSpaceC) := by
              rw [ih]; simp
          _ = pywords ((cur.reverse ++ [c]) ++
                (rest.takeWhile isSpaceC ++ rest.dropWhile isSpaceC)) := by
              rw [pywords_space_block (rest.takeWhile isSpaceC) hcond.2.1
                (fun x hx => List.mem_takeWhile_imp hx)]
          _ = pywords (cur.reverse ++ c :: rest) := by
              rw [hsplit]
              simp [List.append_assoc]
      · rw [splitAuxF, if_neg hcond, ih]
        simp [List.append_assoc]

/-- Word preservation for the top-level regex split. -/
theorem splitParts_words (text : List Char) :
    (splitParts text).flatMap pywords = pywords text := by
  simpa using splitAuxF_words text.length text []

/-- Word preservation for the cleaned sentence list of the chunker. -/
theorem sentencesOf_words (text : List Char) :
    (sentencesOf text).flatMap pywords = pywords text := by
  rw [sentencesOf]
  rw [flatMap_filter_of_nil _ _ _ (fun x _ hx => by
    have : x.isEmpty = true := by simpa using hx
    rw [List.isEmpty_iff.mp this]
    rfl)]
  rw [List.flatMap_map]
  rw [flatMap_congr_of_eq _ _ pywords (fun p _ => pywords_strip p)]
  exact splitParts_words text

/-- The head of a `dropWhile` result fails the predicate. -/
theorem dropWhile_head_not {p : Char → Bool} :
    ∀ (l : List Char) (c : Char) (r : List Char),
      l.dropWhile p = c :: r → p c = false := by
  intro l
  induction l with
  | nil => intro c r h; simp [List.dropWhile] at h
  | cons x xs ih =>
    intro c r h
    by_cases hx : p x = true
    · rw [List.dropWhile_cons, if_pos hx] at h
      exact ih c r h
    · rw [List.dropWhile_cons, if_neg hx] at h
      cases h
      simpa using hx

/-- A nonempty accumulator guarantees a nonempty word list. -/
theorem wordsAux_ne_nil : ∀ (cs cur : List Char), cur ≠ [] → wordsAux cur cs ≠ [] := by
  intro cs
  induction cs with
  | nil =>
    intro cur h
    have : cur.isEmpty = false := by
      cases cur with
      | nil => exact absurd rfl h
      | cons a t => rfl
    simp [wordsAux, this]
  | cons c cs ih =>
    intro cur h
    have hce : cur.isEmpty = false := by
      cases cur with
      | nil => exact absurd rfl h
      | cons a t => rfl
    by_cases hc : isSpaceC c = true
    · simp [wordsAux, hc, hce]
    · simp only [wordsAux, hc]
      simpa using ih (c :: cur) (by simp)

/-- A list starting with a non-whitespace character has at least one word. -/
theorem pywords_cons_ne_nil (c : Char) (cs : List Char)
    (hc : isSpaceC c = false) : pywords (c :: cs) ≠ [] := by
  show wordsAux [] (c :: cs) ≠ []
  simp only [wordsAux, hc]
  simpa using wordsAux_ne_nil cs [c] (by simp)

/-- A nonempty `strip` result starts with a non-whitespace character. -/
theorem stripCL_head_not_space (l : List Char) (c : Char) (r : List Char)
    (h : stripCL l = c :: r) : isSpaceC c = false := by
  have hq := dropTrail_spec (l.dropWhile isSpaceC)
  rw [stripCL] at h
  rw [h] at hq
  exact dropWhile_head_not l c _ hq.symm

/-- Every cleaned sentence of the chunker contains at least one word. -/
theorem sentencesOf_ne_nil_words (text : List Char) :
    ∀ s ∈ sentencesOf text, pywords s ≠ [] := by
  intro s hs
  rw [sentencesOf, List.mem_filter] at hs
  obtain ⟨hmem, hne⟩ := hs
  rw [List.mem_map] at hmem
  obtain ⟨p, _, rfl⟩ := hmem
  cases hsc : stripCL p with
  | nil => rw [hsc] at hne; simp at hne
  | cons c r =>
    exact pywords_cons_ne_nil c r (stripCL_head_not_space p c r hsc)

/-- `csLoop` is the projection of its instrumented copy: each chunk is the
space-join of carried-overlap plus new sentences. -/
theorem csLoop_eq_ann (target ov : Nat) :
    ∀ (rest carr new : List (List Char)) (cnt : Nat),
      csLoop target ov (carr ++ new) cnt rest =
        (csLoopAnn target ov carr new cnt rest).map
          (fun p => joinSpace (p.1 ++ p.2)) := by
  intro rest
  induction rest with
  | nil =>
    intro carr new cnt
    by_cases h : (carr ++ new).isEmpty = true
    · simp [csLoop, csLoopAnn, h]
    · have hf : (carr ++ new).isEmpty = false := by simpa using h
      simp [csLoop, csLoopAnn, hf]
  | cons s rest ih =>
    intro carr new cnt
    by_cases hcond : target < cnt + wc s ∧ (carr ++ new).isEmpty = false
    · simp only [csLoop, csLoopAnn]
      rw [if_pos hcond, if_pos hcond]
      simp only [List.map_cons]
      congr 1
      exact ih (ovSent ov (carr ++ new)).1 [s] _
    · simp only [csLoop, csLoopAnn]
      rw [if_neg hcond, if_neg hcond, List.append_assoc]
      exact ih carr (new ++ [s]) _

/-- The new-sentence components of the instrumented loop flatten to the
pending plus remaining sentences: nothing is lost or duplicated. -/
theorem csLoopAnn_flat (target ov : Nat) :
    ∀ (rest carr new : List (List Char)) (cnt : Nat),
      (csLoopAnn target ov carr new cnt rest).flatMap (fun p => p.2) =
        new ++ rest := by
  intro rest
  induction rest with
  | nil =>
    intro carr new cnt
    by_cases h : (carr ++ new).isEmpty = true
    · have hnew : new = [] := (List.append_eq_nil.mp (List.isEmpty_iff.mp h)).2
      simp [csLoopAnn, h, hnew]
    · have hf : (carr ++ new).isEmpty = false := by simpa using h
      simp [csLoopAnn, hf]
  | cons s rest ih =>
    intro carr new cnt
    by_cases hcond : target < cnt + wc s ∧ (carr ++ new).isEmpty = false
    · simp only [csLoopAnn]
      rw [if_pos hcond]
      simp only [List.flatMap_cons]
      rw [ih]
      simp
    · simp only [csLoopAnn]
      rw [if_neg hcond, ih]
      simp

/-- The first emitted pair keeps the carried component it was started with. -/
theorem csLoopAnn_head (target ov : Nat) :
    ∀ (rest carr new : List (List Char)) (cnt : Nat)
      (p : List (List Char) × List (List Char)),
      (csLoopAnn target ov carr new cnt rest).head? = some p → p.1 = carr := by
  intro rest
  induction rest with
  | nil =>
    intro carr new cnt p hp
    simp only [csLoopAnn] at hp
    by_cases h : (carr ++ new).isEmpty = true
    · rw [if_pos h] at hp
      simp at hp
    · rw [if_neg h] at hp
      simp at hp
      rw [← hp]
  | cons s rest ih =>
    intro carr new cnt p hp
    simp only [csLoopAnn] at hp
    by_cases hcond : target < cnt + wc s ∧ (carr ++ new).isEmpty = false
    · rw [if_pos hcond] at hp
      simp at hp
      rw [← hp]
    · rw [if_neg hcond] at hp
      exact ih carr (new ++ [s]) _ p hp

/-- Successive pairs of the instrumented loop are linked by the overlap
computation: each carried component is the overlap suffix of the previous
chunk. -/
theorem csLoopAnn_chain (target ov : Nat) :
    ∀ (rest carr new : List (List Char)) (cnt : Nat),
      List.Chain' (fun a b => b.1 = (ovSent ov (a.1 ++ a.2)).1)
        (csLoopAnn target ov carr new cnt rest) := by
  intro rest
  induction rest with
  | nil =>
    intro carr new cnt
    by_cases h : (carr ++ new).isEmpty = true <;> simp [csLoopAnn, h]
  | cons s rest ih =>
    intro carr new cnt
    by_cases hcond : target < cnt + wc s ∧ (carr ++ new).isEmpty = false
    · simp only [csLoopAnn]
      rw [if_pos hcond]
      rw [List.chain'_cons']
      refine ⟨?_, ih _ _ _⟩
      intro y hy
      exact csLoopAnn_head target ov rest _ [s] _ y (Option.mem_def.mp hy)
    · simp only [csLoopAnn]
      rw [if_neg hcond]
      exact ih _ _ _

/-- With overlap budget 0, no sentence fits into the carried suffix. -/
theorem ovSent_zero (l : List (List Char)) (hne : l ≠ [])
    (hgood : ∀ s ∈ l, pywords s ≠ []) : (ovSent 0 l).1 = [] := by
  rw [ovSent]
  cases hrev : l.reverse with
  | nil => exact absurd (List.reverse_eq_nil_iff.mp hrev) hne
  | cons s t =>
    have hs : s ∈ l := List.mem_reverse.mp (by rw [hrev]; simp)
    have hwc : ¬ (0 + wc s ≤ 0) := by
      have hw : wc s ≠ 0 := by
        intro hz
        exact hgood s hs (List.length_eq_zero.mp hz)
      omega
    simp only [ovSentAux]
    rw [if_neg hwc]

/-- With overlap 0 every chunk of the instrumented loop (started with an
empty carried component) has an empty carried component: adjacent chunks
are disjoint segments of the sentence sequence. -/
theorem csLoopAnn_zero_carr (target : Nat) :
    ∀ (rest new : List (List Char)) (cnt : Nat),
      (∀ s ∈ new, pywords s ≠ []) → (∀ s ∈ rest, pywords s ≠ []) →
      ∀ p ∈ csLoopAnn target 0 [] new cnt rest, p.1 = [] := by
  intro rest
  induction rest with
  | nil =>
    intro new cnt _ _ p hp
    simp only [csLoopAnn, List.nil_append] at hp
    by_cases h : new.isEmpty = true
    · rw [if_pos h] at hp
      simp at hp
    · rw [if_neg h] at hp
      simp at hp
      simp [hp]
  | cons s rest ih =>
    intro new cnt hnew hrest p hp
    simp only [csLoopAnn, List.nil_append] at hp
    by_cases hcond : target < cnt + wc s ∧ new.isEmpty = false
    · rw [if_pos hcond] at hp
      rcases List.mem_cons.mp hp with h1 | h2
      · simp [h1]
      · have hnn : new ≠ [] := by
          intro hn
          rw [hn] at hcond
          simp at hcond
        have hov : (ovSent 0 new).1 = [] := ovSent_zero new hnn hnew
        rw [hov] at h2
        refine ih [s] _ ?_ ?_ p h2
        · intro x hx
          rw [List.mem_singleton] at hx
          rw [hx]
          exact hrest s (by simp)
        · intro x hx
          exact hrest x (by simp [hx])
    · rw [if_neg hcond] at hp
      refine ih (new ++ [s]) _ ?_ ?_ p hp
      · intro x hx
        rcases List.mem_append.mp hx with h1 | h1
        · exact hnew x h1
        · rw [List.mem_singleton] at h1
          rw [h1]
          exact hrest s (by simp)
      · intro x hx
        exact hrest x (by simp [hx])

/-- Words of the de-overlapped chunk join = words of all new sentences. -/
theorem pywords_join_of_snd (ann : List (List (List Char) × List (List Char))) :
    pywords (joinSpace (ann.map (fun p => joinSpace p.2))) =
      (ann.flatMap (fun p => p.2)).flatMap pywords := by
  rw [pywords_joinSpace]
  rw [List.flatMap_map]
  rw [flatMap_congr_of_eq _ _ (fun p => p.2.flatMap pywords)
    (fun p _ => pywords_joinSpace p.2)]
  exact (List.flatMap_assoc _ _ _).symm

/-- `chunk_by_sentences` is the projection of the annotated decomposition. -/
theorem chunk_by_sentences_eq_ann (text : List Char) (ts ov : Nat) :
    chunk_by_sentences text ts ov =
      (chunkAnn text ts ov).map (fun p => joinSpace (p.1 ++ p.2)) := by
  simp only [chunk_by_sentences, chunkAnn]
  by_cases hs : (sentencesOf text).isEmpty = true
  · by_cases hstrip : (stripCL text).isEmpty = true
    · simp [hs, hstrip]
    · have hstripf : (stripCL text).isEmpty = false := by simpa using hstrip
      simp [hs, hstripf, joinSpace]
  · have hsf : (sentencesOf text).isEmpty = false := by simpa using hs
    simp only [hsf, Bool.false_eq_true, if_false]
    simpa using csLoop_eq_ann ts ov (sentencesOf text) [] [] 0

/-- Claim C3: for every non-empty text and positive target size and overlap
with overlap < target size, the chunks of sentence-aware chunking are the
joins of (carried overlap prefix ++ new sentences); the first chunk carries
nothing; each carried prefix is exactly the overlap suffix carried over
from the previous chunk; and the chunks with their carried prefixes removed,
concatenated in output order, reconstruct the input text up to whitespace
normalization (equal Python word lists). -/
theorem chunk_by_sentences_reconstruction (text : List Char) (ts ov : Nat)
    (h1 : text ≠ []) (h2 : 0 < ts) (h3 : ov < ts) :
    chunk_by_sentences text ts ov =
      (chunkAnn text ts ov).map (fun p => joinSpace (p.1 ++ p.2)) ∧
    (∀ p, (chunkAnn text ts ov).head? = some p → p.1 = []) ∧
    List.Chain' (fun a b => b.1 = (ovSent ov (a.1 ++ a.2)).1) (chunkAnn text ts ov) ∧
    pywords (joinSpace ((chunkAnn text ts ov).map (fun p => joinSpace p.2))) =
      pywords text := by
  refine ⟨chunk_by_sentences_eq_ann text ts ov, ?_, ?_, ?_⟩
  · intro p hp
    simp only [chunkAnn] at hp
    by_cases hs : (sentencesOf text).isEmpty = true
    · by_cases hstrip : (stripCL text).isEmpty = true
      · simp [hs, hstrip] at hp
      · have hstripf : (stripCL text).isEmpty = false := by simpa using hstrip
        simp [hs, hstripf] at hp
        rw [← hp]
    · have hsf : (sentencesOf text).isEmpty = false := by simpa using hs
      simp only [hsf, Bool.false_eq_true, if_false] at hp
      exact csLoopAnn_head ts ov (sentencesOf text) [] [] 0 p hp
  · simp only [chunkAnn]
    by_cases hs : (sentencesOf text).isEmpty = true
    · by_cases hstrip : (stripCL text).isEmpty = true <;> simp [hs, hstrip]
    · have hsf : (sentencesOf text).isEmpty = false := by simpa using hs
      simp only [hsf, Bool.false_eq_true, if_false]
      exact csLoopAnn_chain ts ov (sentencesOf text) [] [] 0
  · simp only [chunkAnn]
    by_cases hs : (sentencesOf text).isEmpty = true
    · have hsents : sentencesOf text = [] := List.isEmpty_iff.mp hs
      have hwords : pywords text = [] := by
        have := sentencesOf_words text
        rw [hsents] at this
        exact this.symm
      by_cases hstrip : (stripCL text).isEmpty = true
      · simp [hs, hstrip, pywords_joinSpace, hwords]
      · have hstripf : (stripCL text).isEmpty = false := by simpa using hstrip
        simp [hs, hstripf, joinSpace]
    · have hsf : (sentencesOf text).isEmpty = false := by simpa using hs
      simp only [hsf, Bool.false_eq_true, if_false]
      rw [pywords_join_of_snd]
      rw [csLoopAnn_flat ts ov (sentencesOf text) [] [] 0]
      simpa using sentencesOf_words text

/-- Witness for C3 at the concrete input "Hi." with target 2, overlap 1. -/
theorem chunk_by_sentences_reconstruction_witness :
    strChars ("Hi.") ≠ [] ∧ 0 < 2 ∧ 1 < 2 ∧
    (chunk_by_sentences (strChars ("Hi.")) 2 1 =
        (chunkAnn (strChars ("Hi.")) 2 1).map (fun p => joinSpace (p.1 ++ p.2)) ∧
      (∀ p, (chunkAnn (strChars ("Hi.")) 2 1).head? = some p → p.1 = []) ∧
      List.Chain' (fun a b => b.1 = (ovSent 1 (a.1 ++ a.2)).1)
        (chunkAnn (strChars ("Hi.")) 2 1) ∧
      pywords (joinSpace ((chunkAnn (strChars ("Hi.")) 2 1).map
        (fun p => joinSpace p.2))) = pywords (strChars ("Hi."))) :=
  ⟨by decide, by decide, by decide,
    chunk_by_sentences_reconstruction (strChars ("Hi.")) 2 1 (by decide)
      (by decide) (by decide)⟩

/-- Claim C4 (amended): requesting `chunk_overlap = 0` through the public
`chunk_text` silently substitutes the configured default overlap (see the
counterexample), so overlap 0 is unreachable through `chunk_text`; calling
`chunk_by_sentences` directly with overlap 0, every chunk's carried-overlap
component is empty — no sentence is carried over from the previous chunk,
adjacent chunks being disjoint segments of the sentence sequence. -/
theorem chunk_by_sentences_zero_overlap_disjoint (text : List Char) (ts : Nat)
    (h : 0 < ts) :
    chunk_by_sentences text ts 0 =
      (chunkAnn text ts 0).map (fun p => joinSpace (p.1 ++ p.2)) ∧
    ∀ p ∈ chunkAnn text ts 0, p.1 = [] := by
  refine ⟨chunk_by_sentences_eq_ann text ts 0, ?_⟩
  intro p hp
  simp only [chunkAnn] at hp
  by_cases hs : (sentencesOf text).isEmpty = true
  · by_cases hstrip : (stripCL text).isEmpty = true
    · simp [hs, hstrip] at hp
    · have hstripf : (stripCL text).isEmpty = false := by simpa using hstrip
      simp [hs, hstripf] at hp
      simp [hp]
  · have hsf : (sentencesOf text).isEmpty = false := by simpa using hs
    simp only [hsf, Bool.false_eq_true, if_false] at hp
    exact csLoopAnn_zero_carr ts (sentencesOf text) [] 0 (by simp)
      (sentencesOf_ne_nil_words text) p hp

/-- Witness for (amended) C4 at the concrete input "Hi. Yo." with target 1. -/
theorem chunk_by_sentences_zero_overlap_disjoint_witness :
    0 < 1 ∧
    (chunk_by_sentences (strChars ("Hi. Yo.")) 1 0 =
        (chunkAnn (strChars ("Hi. Yo.")) 1 0).map (fun p => joinSpace (p.1 ++ p.2)) ∧
      ∀ p ∈ chunkAnn (strChars ("Hi. Yo.")) 1 0, p.1 = []) :=
  ⟨by decide, chunk_by_sentences_zero_overlap_disjoint (strChars ("Hi. Yo.")) 1
    (by decide)⟩

/-- Counterexample to C4 as stated: `chunk_text("A. B. C.", chunk_size=2,
chunk_overlap=0)` (defaults 500/50) replaces the falsy overlap 0 by the
default 50 and returns two adjacent chunks "A. B." and "A. B. C." whose
decomposition shows the second chunk carries the sentences "A." and "B."
over from the first — adjacent chunks do share sentences. -/
theorem chunk_text_zero_overlap_cex :
    chunk_text 0 (strChars ("A. B. C.")) (some 2) (some 0) true 500 50 =
      some [strChars ("A. B."), strChars ("A. B. C.")] ∧
    chunkAnn (strChars ("A. B. C.")) 2 50 =
      [([], [strChars ("A."), strChars ("B.")]),
        ([strChars ("A."), strChars ("B.")], [strChars ("C.")])] ∧
    ([strChars ("A."), strChars ("B.")] : List (List Char)) ≠ [] := by
  refine ⟨by decide, by decide, by decide⟩

/-- Claim C5: in `chunk_text`, a falsy `chunk_size` / `chunk_overlap`
argument (`0` or `None`) is replaced by the configured default before
chunking, and the effective overlap can only be 0 when the configured
default itself is 0. -/
theorem chunk_text_falsy_defaults (fuel : Nat) (text : List Char)
    (cs co : Option Nat) (r : Bool) (S O : Nat) :
    chunk_text fuel text (some 0) co r S O = chunk_text fuel text none co r S O ∧
    chunk_text fuel text cs (some 0) r S O = chunk_text fuel text cs none r S O ∧
    chunk_text fuel text none none r S O =
      chunk_text fuel text (some S) (some O) r S O ∧
    (pyOr co O = 0 ↔ O = 0 ∧ (co = none ∨ co = some 0)) := by
  refine ⟨?_, ?_, ?_, ?_⟩
  · simp [chunk_text, pyOr]
  · simp [chunk_text, pyOr]
  · simp [chunk_text, pyOr]
  · cases co with
    | none => simp [pyOr]
    | some n =>
      by_cases hn : n = 0 <;> simp [pyOr, hn]

/-- The word-mode loop never halts on the two-word input with
`chunk_size = overlap = 1`: the window start returns to 0 every iteration
and the break guard `start >= len(words) - overlap` never fires. -/
theorem cbwLoop_ab : ∀ fuel : Nat, cbwLoop 1 1 [['a'], ['b']] fuel 0 = none := by
  intro fuel
  induction fuel with
  | zero => rfl
  | succ n ih =>
    simp only [cbwLoop]
    norm_num
    rw [ih]

/-- Claim C1: word-count-mode chunking does NOT terminate for
`overlap >= target_size` on inputs longer than one window: for the text
"a b" with `target_size = 1, overlap = 1`, the loop of `chunk_by_words`
never finishes (every fuel bound is exhausted), contradicting the required
abort-and-emit behaviour. -/
theorem chunk_by_words_overlap_diverges :
    ∀ fuel : Nat,
      chunk_text fuel (strChars ("a b")) (some 1) (some 1) false 500 50 = none := by
  intro fuel
  have h1 : (stripCL (strChars ("a b"))).isEmpty = false := by decide
  have h2 : pywords (strChars ("a b")) = [['a'], ['b']] := by decide
  simp only [chunk_text, h1, Bool.false_eq_true, if_false, pyOr, chunk_by_wordsF, h2]
  norm_num
  exact cbwLoop_ab fuel

/-- The `enumerate(chunks, 1)` loop rendered as a map over `enumFrom`. -/
theorem contextParts_eq_enumFrom (inc : Bool) :
    ∀ (l : List RetrievedChunk) (i : Nat),
      contextParts inc i l = (List.enumFrom i l).map
        (fun p => if inc then contextBlock p.1 p.2 else p.2.content.getD ("")) := by
  intro l
  induction l with
  | nil => intro i; rfl
  | cons c rest ih =>
    intro i
    simp [contextParts, List.enumFrom_cons, ih]

/-- Claim C8: `format_context` on the empty list is exactly the sentinel
string, and on a non-empty list renders one block per chunk, numbered from
1 in input order with the "[Source i: source (relevance: s)]\ncontent"
template, joined by the "\n\n---\n\n" separator. -/
theorem format_context_spec (chunks : List RetrievedChunk) (h : chunks ≠ []) :
    format_context [] true = "No relevant information found in the knowledge base." ∧
    format_context chunks true =
      String.intercalate ("\n\n---\n\n") ((List.enumFrom 1 chunks).map
        (fun p => "[Source " ++ toString p.1 ++ ": " ++
          p.2.source_file.getD ("Unknown") ++ " (relevance: " ++
          fmt2 (p.2.similarity.getD 0) ++ ")]\n" ++ p.2.content.getD (""))) := by
  constructor
  · rfl
  · have hne : chunks.isEmpty = false := by
      cases chunks with
      | nil => exact absurd rfl h
      | cons a t => rfl
    rw [format_context]
    simp only [hne, Bool.false_eq_true, if_false]
    rw [contextParts_eq_enumFrom]
    congr 1

/-- Witness for C8 at a singleton chunk list. -/
theorem format_context_spec_witness :
    ([⟨some ("abc"), some ("src1"), some 1, some 1⟩] : List RetrievedChunk) ≠ [] ∧
    (format_context [] true = "No relevant information found in the knowledge base." ∧
      format_context [⟨some ("abc"), some ("src1"), some 1, some 1⟩] true =
        String.intercalate ("\n\n---\n\n")
          ((List.enumFrom 1
            ([⟨some ("abc"), some ("src1"), some 1, some 1⟩] : List RetrievedChunk)).map
            (fun p => "[Source " ++ toString p.1 ++ ": " ++
              p.2.source_file.getD ("Unknown") ++ " (relevance: " ++
              fmt2 (p.2.similarity.getD 0) ++ ")]\n" ++ p.2.content.getD ("")))) :=
  ⟨by decide, format_context_spec _ (by decide)⟩

set_option maxRecDepth 8192 in
/-- Counterexample to C9 as stated: a 2-character content is not truncated
by the 100-character preview cut, yet `get_sources` still appends the
ellipsis — the preview is "hi...", not "hi". -/
theorem get_sources_preview_cex :
    (get_sources [⟨some ("hi"), some ("s"), some 0, some 0⟩]).map
        SourceCitation.preview = ["hi..."] ∧
    ("hi" : String).length ≤ 100 ∧
    (["hi..."] : List String) ≠ ["hi"] := by
  refine ⟨rfl, by decide, by decide⟩

/-- Claim C9 (amended): `get_sources` returns exactly one citation per input
chunk in the same order, with similarity rounded to 3 decimals and preview
equal to the first 100 characters of the content followed by "..."
unconditionally (the source appends the ellipsis whether or not the content
was truncated). -/
theorem get_sources_spec (chunks : List RetrievedChunk) :
    (get_sources chunks).length = chunks.length ∧
    ∀ p ∈ (get_sources chunks).zip chunks,
      p.1.source_file = p.2.source_file.getD ("Unknown") ∧
      p.1.chunk_index = p.2.chunk_index.getD 0 ∧
      p.1.similarity = round3 (p.2.similarity.getD 0) ∧
      p.1.preview = (p.2.content.getD ("")).take 100 ++ "..." := by
  refine ⟨by simp [get_sources], ?_⟩
  induction chunks with
  | nil => intro p hp; simp [get_sources] at hp
  | cons c rest ih =>
    intro p hp
    rw [get_sources, List.map_cons, List.zip_cons_cons] at hp
    rcases List.mem_cons.mp hp with h1 | h2
    · rw [h1]
      exact ⟨rfl, rfl, rfl, rfl⟩
    · exact ih p (by rw [get_sources]; exact h2)

/-- Claim C7: with a positive threshold, every retrieved chunk has
similarity at least the threshold; the retained chunks form a sublist (same
relative order) of what the index search returned; and an empty search
result yields the empty sequence. -/
theorem retrieve_filters_below_min (S : SearchFn) (q : String) (tk0 : Option Nat)
    (sf : Option String) (ms : ℚ) (TOPK : Nat) (h : 0 < ms) :
    (∀ c ∈ retrieve_relevant_chunks S q tk0 sf ms TOPK, ms ≤ c.similarity.getD 0) ∧
    List.Sublist (retrieve_relevant_chunks S q tk0 sf ms TOPK)
      (S q (pyOr tk0 TOPK) sf) ∧
    retrieve_relevant_chunks emptySearch q tk0 sf ms TOPK = [] := by
  refine ⟨?_, ?_, ?_⟩
  · intro c hc
    simp only [retrieve_relevant_chunks] at hc
    rw [if_pos h] at hc
    rw [List.mem_filter] at hc
    exact of_decide_eq_true hc.2
  · simp only [retrieve_relevant_chunks]
    rw [if_pos h]
    exact List.filter_sublist _
  · simp only [retrieve_relevant_chunks, emptySearch]
    rw [if_pos h]
    rfl

/-- Witness for C7 at threshold 1 over the two-hit oracle. -/
theorem retrieve_filters_below_min_witness :
    (0 : ℚ) < 1 ∧
    ((∀ c ∈ retrieve_relevant_chunks twoHitSearch ("q") (some 2) none 1 5,
        (1 : ℚ) ≤ c.similarity.getD 0) ∧
      List.Sublist (retrieve_relevant_chunks twoHitSearch ("q") (some 2) none 1 5)
        (twoHitSearch ("q") (pyOr (some 2) 5) none) ∧
      retrieve_relevant_chunks emptySearch ("q") (some 2) none 1 5 = []) :=
  ⟨by decide, retrieve_filters_below_min twoHitSearch ("q") (some 2) none 1 5
    (by decide)⟩

/-- Claim C6: when retrieval is empty, `query` returns normally with the
fixed fallback answer, no sources, empty context and zero chunk count — a
result that does not depend on the generator at all. -/
theorem query_empty_retrieval_fallback (S : SearchFn)
    (gen : String → String → ℚ → String) (TOPK : Nat) (tk0 : Option Nat)
    (ms temp : ℚ) (q : String) (sf : Option String)
    (h : retrieve_relevant_chunks S q (some (pyOr tk0 TOPK)) sf ms TOPK = []) :
    pipeline_query S gen TOPK tk0 ms temp q sf = ⟨q, fallbackAnswer, [], "", 0⟩ := by
  simp [pipeline_query, h]

/-- Witness for C6 over the empty oracle. -/
theorem query_empty_retrieval_fallback_witness :
    retrieve_relevant_chunks emptySearch ("q") (some (pyOr none 5)) none 0 5 = [] ∧
    pipeline_query emptySearch (fun _ _ _ => ("x")) 5 none 0 0 ("q") none =
      ⟨("q"), fallbackAnswer, [], "", 0⟩ :=
  ⟨rfl, query_empty_retrieval_fallback emptySearch _ 5 none 0 0 ("q") none rfl⟩

/-- Claim C2 (amended): `query_stream` always retrieves with
`min_similarity = 0` — the configured pipeline threshold is not passed to
retrieval — so its retrieval and assembly coincide with those of `query`
exactly at threshold 0: for every oracle, generator and question, the
emitted stream equals the event sequence derived from the `query` result
computed with `min_similarity = 0` (sources event from its sources, answer
fragments generated from its context, terminal done; error event when that
query retrieved nothing). -/
theorem query_stream_matches_query_at_zero_threshold (S : SearchFn)
    (gen : String → String → ℚ → String)
    (genStream : String → String → ℚ → List String) (TOPK : Nat)
    (tk0 : Option Nat) (temp : ℚ) (q : String) (sf : Option String) :
    pipeline_query_stream S genStream TOPK tk0 temp q sf =
      streamSpecOfResult genStream temp
        (pipeline_query S gen TOPK tk0 0 temp q sf) := by
  simp only [pipeline_query_stream, pipeline_query, streamSpecOfResult]
  by_cases hc :
      (retrieve_relevant_chunks S q (some (pyOr tk0 TOPK)) sf 0 TOPK).isEmpty = true
  · simp [hc]
  · have hcf :
        (retrieve_relevant_chunks S q (some (pyOr tk0 TOPK)) sf 0 TOPK).isEmpty
          = false := by simpa using hc
    have hnn : retrieve_relevant_chunks S q (some (pyOr tk0 TOPK)) sf 0 TOPK ≠ [] := by
      intro hn
      rw [hn] at hcf
      simp at hcf
    have hlen :
        (retrieve_relevant_chunks S q (some (pyOr tk0 TOPK)) sf 0 TOPK).length ≠ 0 := by
      simpa [List.length_eq_zero] using hnn
    simp [hcf, hlen]

/-- Counterexample to C2 as stated: with pipeline `min_similarity = 1` and a
single index hit of similarity 0, `query` filters the hit away and falls
back (no sources, zero chunks retrieved), while `query_stream` — which does
not pass the configured threshold to retrieval — keeps the hit and emits a
nonempty `sources` event: the two paths do not perform the same retrieval. -/
theorem query_stream_ignores_min_similarity_cex :
    (pipeline_query cexSearch (fun _ _ _ => ("ans")) 5 none 1 0 ("q") none).sources
        = [] ∧
    (pipeline_query cexSearch (fun _ _ _ => ("ans")) 5 none 1 0 ("q")
        none).chunks_retrieved = 0 ∧
    pipeline_query_stream cexSearch (fun _ _ _ => []) 5 none 0 ("q") none =
      [StreamEvent.sourcesEv (get_sources [cexChunk]), StreamEvent.doneEv] ∧
    get_sources [cexChunk] ≠ [] := by
  refine ⟨rfl, rfl, rfl, by simp [get_sources]⟩

/-- Claim C10: `compute_similarity` returns the cosine similarity (the
normalised dot product) whenever both norms are nonzero — so the division
is never performed on a zero denominator — and returns the defined value 0
whenever either vector has zero norm. -/
theorem compute_similarity_spec (v1 v2 : List ℝ) :
    (compute_similarity v1 v2 = 0 ∧ (normR v1 = 0 ∨ normR v2 = 0)) ∨
    (compute_similarity v1 v2 = cosineSim v1 v2 ∧
      cosineSim v1 v2 = dotR v1 v2 / (normR v1 * normR v2) ∧
      normR v1 * normR v2 ≠ 0) := by
  by_cases h : normR v1 = 0 ∨ normR v2 = 0
  · left
    refine ⟨?_, h⟩
    simp only [compute_similarity]
    rw [if_pos h]
  · right
    refine ⟨?_, rfl, ?_⟩
    · simp only [compute_similarity, cosineSim]
      rw [if_neg h]
    · push_neg at h
      exact mul_ne_zero h.1 h.2
